import Mathlib

/-!
Verification development for the gudam-backend agent-matching, reputation and
product-verification core (src/routers/agent_matching.py,
src/routers/reputation_service.py, src/routers/verification_service.py,
src/utils/helpers.py).

Modelling conventions:
* Python floats are modelled as rationals (ℚ): the spec-level claims concern the
  arithmetic structure of the formulas, not binary floating-point artefacts.
* Python's builtin round (banker's rounding, round-half-to-even) is modelled by
  roundHalfEven / round2 below; Python's int() truncation toward zero by pyTrunc.
* The haversine great-circle distance (utils/helpers.py, haversine_km) is a
  transcendental real-valued function; the matching code treats it as an oracle,
  so the embedding takes the distance function as an explicit parameter.  Its
  one relevant analytic property — nonnegativity, since it returns R * c with
  R = 6371 and c = 2 * atan2(sqrt a, sqrt (1 - a)) ≥ 0 — is assumed as a
  hypothesis where a claim needs it.
* The Supabase record store is modelled by explicit lists of rows; select-eq
  returns rows in table order (List.find? gives the first match, mirroring
  result.data[0]), update patches every matching row, insert appends.
* Python truthiness tests (used on optional strings and optional floats) are
  modelled explicitly: a missing/None/empty string is falsy, a None/0.0 float
  is falsy.
-/

/-- Python's int() applied to a rational: truncation toward zero. -/
def pyTrunc (q : ℚ) : ℤ :=
  if 0 ≤ q then q.floor else -(-q).floor

/-- Python's builtin round to an integer: round half to even (banker's
rounding), modelled on exact rationals. -/
def roundHalfEven (q : ℚ) : ℤ :=
  if q - (q.floor : ℚ) < 1/2 then q.floor
  else if 1/2 < q - (q.floor : ℚ) then q.floor + 1
  else if q.floor % 2 = 0 then q.floor else q.floor + 1

/-- Python's round(x, 2), modelled on exact rationals. -/
def round2 (q : ℚ) : ℚ :=
  (roundHalfEven (q * 100) : ℚ) / 100

/-- Bridge between the computable Rat.floor used in the definitions and the
Mathlib floor used in proofs. -/
theorem ratFloor_eq_intFloor (q : ℚ) : q.floor = ⌊q⌋ := by
  rw [Rat.floor_def, Rat.floor_def']

theorem floor_lt_ceil_of_frac_pos {q : ℚ} (h : (⌊q⌋ : ℚ) < q) : ⌊q⌋ < ⌈q⌉ := by
  by_contra hc
  push_neg at hc
  have h1 : q ≤ (⌈q⌉ : ℚ) := Int.le_ceil q
  have h2 : ((⌈q⌉ : ℤ) : ℚ) ≤ ((⌊q⌋ : ℤ) : ℚ) := by exact_mod_cast hc
  linarith

theorem roundHalfEven_ge_floor (q : ℚ) : ⌊q⌋ ≤ roundHalfEven q := by
  unfold roundHalfEven
  simp only [ratFloor_eq_intFloor]
  split_ifs <;> omega

theorem roundHalfEven_le_ceil (q : ℚ) : roundHalfEven q ≤ ⌈q⌉ := by
  unfold roundHalfEven
  simp only [ratFloor_eq_intFloor]
  have hle : ⌊q⌋ ≤ ⌈q⌉ := Int.floor_le_ceil q
  split_ifs with h1 h2 h3
  · exact hle
  · have : (⌊q⌋ : ℚ) < q := by linarith
    have := floor_lt_ceil_of_frac_pos this
    omega
  · exact hle
  · have hr : q - (⌊q⌋ : ℚ) = 1/2 := le_antisymm (not_lt.mp h2) (not_lt.mp h1)
    have : (⌊q⌋ : ℚ) < q := by linarith
    have := floor_lt_ceil_of_frac_pos this
    omega

theorem roundHalfEven_mono {x y : ℚ} (h : x ≤ y) :
    roundHalfEven x ≤ roundHalfEven y := by
  unfold roundHalfEven
  simp only [ratFloor_eq_intFloor]
  have hf : ⌊x⌋ ≤ ⌊y⌋ := Int.floor_le_floor h
  rcases eq_or_lt_of_le hf with hfe | hflt
  · have hcast : ((⌊x⌋ : ℤ) : ℚ) = ((⌊y⌋ : ℤ) : ℚ) := by exact_mod_cast hfe
    have hr : x - (⌊x⌋ : ℚ) ≤ y - (⌊y⌋ : ℚ) := by linarith
    split_ifs <;> first | omega | linarith
  · split_ifs <;> omega

theorem round2_mono {x y : ℚ} (h : x ≤ y) : round2 x ≤ round2 y := by
  unfold round2
  have h1 := roundHalfEven_mono (show x * 100 ≤ y * 100 by linarith)
  have h2 : ((roundHalfEven (x * 100) : ℤ) : ℚ) ≤ ((roundHalfEven (y * 100) : ℤ) : ℚ) := by
    exact_mod_cast h1
  linarith

theorem round2_nonneg {x : ℚ} (h : 0 ≤ x) : 0 ≤ round2 x := by
  unfold round2
  have h1 : (0 : ℤ) ≤ ⌊x * 100⌋ := Int.floor_nonneg.mpr (by linarith)
  have h2 := roundHalfEven_ge_floor (x * 100)
  have h3 : ((0 : ℤ) : ℚ) ≤ ((roundHalfEven (x * 100) : ℤ) : ℚ) := by
    exact_mod_cast le_trans h1 h2
  have : (0 : ℚ) ≤ (roundHalfEven (x * 100) : ℚ) := by exact_mod_cast h3
  linarith [div_nonneg this (by norm_num : (0:ℚ) ≤ 100)]

theorem round2_le_int {x : ℚ} {b : ℤ} (h : x ≤ (b : ℚ)) : round2 x ≤ (b : ℚ) := by
  unfold round2
  have hc : ⌈x * 100⌉ ≤ b * 100 := by
    apply Int.ceil_le.mpr
    push_cast
    linarith
  have h2 := le_trans (roundHalfEven_le_ceil (x * 100)) hc
  have h3 : ((roundHalfEven (x * 100) : ℤ) : ℚ) ≤ ((b : ℤ) : ℚ) * 100 := by
    exact_mod_cast h2
  linarith

/-!
Reputation engine: shallow embedding of _compute_reputation
(src/routers/reputation_service.py, lines 16-88).  The Supabase fetch of all
ratings with to_user_id = user_id is abstracted: the function takes the list of
fetched rating rows directly, in table order.  Reputation of a user in the
endpoint embeddings below is computeReputation (ratingsOf userId) where
ratingsOf models the ratings table indexed by ratee.
-/

/-- One row of the ratings table, restricted to the fields _compute_reputation
reads: rating (numeric score), type (category tag, absent key modelled as
none), rated_entity_type (absent key or SQL null modelled as none). -/
structure Rating where
  score : ℚ
  category : Option String
  entityType : Option String
deriving Repr, DecidableEq

/-- Python string-or-fallback: s or d, where None and the empty string are
falsy. -/
def strOr (s : Option String) (d : String) : String :=
  match s with
  | none => d
  | some t => if t = "" then d else t

/-- Category key of a rating row: r.get("type", "general"). -/
def categoryKey (r : Rating) : String :=
  r.category.getD "general"

/-- Entity-type key of a rating row:
r.get("rated_entity_type") or r.get("type", "farmer"). -/
def entityKey (r : Rating) : String :=
  strOr r.entityType (r.category.getD "farmer")

/-- The score_breakdown histogram: one counter per string key "1".."5". -/
structure Breakdown where
  b1 : ℕ
  b2 : ℕ
  b3 : ℕ
  b4 : ℕ
  b5 : ℕ
deriving Repr, DecidableEq

/-- One loop iteration of the breakdown computation: bucket = str(int(rating));
if bucket in breakdown: breakdown[bucket] += 1.  Buckets whose truncated score
is outside 1..5 are dropped. -/
def bumpBreakdown (b : Breakdown) (score : ℚ) : Breakdown :=
  if pyTrunc score = 1 then { b with b1 := b.b1 + 1 }
  else if pyTrunc score = 2 then { b with b2 := b.b2 + 1 }
  else if pyTrunc score = 3 then { b with b3 := b.b3 + 1 }
  else if pyTrunc score = 4 then { b with b4 := b.b4 + 1 }
  else if pyTrunc score = 5 then { b with b5 := b.b5 + 1 }
  else b

/-- The score_breakdown loop over the fetched ratings. -/
def mkBreakdown (ratings : List Rating) : Breakdown :=
  ratings.foldl (fun b r => bumpBreakdown b r.score) ⟨0, 0, 0, 0, 0⟩

/-- Sum of the raw scores of a rating list. -/
def ratingSum (ratings : List Rating) : ℚ :=
  ratings.foldl (fun s r => s + r.score) 0

/-- Per-key group average used for both category_scores and entity_scores: the
dict is modelled as a function from key to Option ℚ, none meaning the key is
absent.  A key is present iff some fetched rating maps to it; its value is the
rounded mean of the scores of the ratings mapping to it. -/
def groupScore (key : Rating → String) (ratings : List Rating) (k : String) : Option ℚ :=
  match ratings.filter (fun r => key r = k) with
  | [] => none
  | l => some (round2 (ratingSum l / l.length))

/-- Badge assignment if-chain (src/routers/reputation_service.py, lines 63-77).
First matching rule wins. -/
def badgeOf (avg : ℚ) (total : ℕ) : Option String :=
  if avg ≥ 9/2 ∧ total ≥ 5 then some "Gold Seller"
  else if avg ≥ 4 ∧ total ≥ 3 then some "Trusted Seller"
  else if avg ≥ 7/2 then some "Verified Seller"
  else if avg ≥ 5/2 then some "New Seller"
  else none

/-- The derived reputation object.  For the empty-ratings early return the
source dict carries no entity_scores key at all; the map-as-function model
renders both the absent key and an empty dict as the everywhere-none map. -/
structure Reputation where
  averageScore : ℚ
  totalRatings : ℕ
  breakdown : Breakdown
  categoryScores : String → Option ℚ
  entityScores : String → Option ℚ
  badge : Option String

/-- Shallow embedding of _compute_reputation, the fetch abstracted to the list
of rating rows for the user. -/
def computeReputation (ratings : List Rating) : Reputation :=
  match ratings with
  | [] =>
      { averageScore := 0
        totalRatings := 0
        breakdown := ⟨0, 0, 0, 0, 0⟩
        categoryScores := fun _ => none
        entityScores := fun _ => none
        badge := none }
  | _ :: _ =>
      let total := ratings.length
      let avg := round2 (ratingSum ratings / total)
      { averageScore := avg
        totalRatings := total
        breakdown := mkBreakdown ratings
        categoryScores := groupScore categoryKey ratings
        entityScores := groupScore entityKey ratings
        badge := badgeOf avg total }

/-!
Agent matching engine: shallow embedding of the candidate loop shared verbatim
by match_agent (src/routers/agent_matching.py, lines 86-150) and
auto_match_and_notify (lines 305-353), plus get_top_ranked_agents
(lines 214-245).  An agent row is the output of _extract_agent_details
(lines 47-67), restricted to the fields the matching logic reads; the location
dict's lat/lon keys are modelled separately because the code checks each for
None on its own.  The distance function distF abstracts haversine_km.
-/

/-- An agent row after _extract_agent_details, restricted to the fields the
matching logic reads.  staticRating is gudam_details.average_rating with the
extraction default 3.0. -/
structure AgentRec where
  id : String
  isActive : Bool
  lat : Option ℚ
  lon : Option ℚ
  available : ℚ
  staticRating : ℚ
deriving Repr, DecidableEq

/-- Body of MatchAgentRequest / AutoMatchNotifyRequest restricted to the fields
the candidate loop reads. -/
structure MatchRequest where
  farmerLat : ℚ
  farmerLon : ℚ
  quantityTons : Option ℚ
  maxDistanceKm : ℚ
deriving Repr, DecidableEq

/-- A candidate entry as appended to the candidates list, restricted to the
numeric fields the claims are about. -/
structure Candidate where
  agentId : String
  distanceKm : ℚ
  availableCapacityTons : ℚ
  averageRating : ℚ
  matchScore : ℚ
deriving Repr, DecidableEq

/-- Python truthiness of the optional quantity_tons: None and 0.0 are falsy. -/
def qtyTruthy : Option ℚ → Bool
  | none => false
  | some q => q ≠ 0

/-- The distance the loop computes for an agent (only meaningful when both
coordinates are present). -/
def agentDist (distF : ℚ → ℚ → ℚ → ℚ → ℚ) (req : MatchRequest) (a : AgentRec) : ℚ :=
  distF req.farmerLat req.farmerLon (a.lat.getD 0) (a.lon.getD 0)

/-- The four continue-guards of the candidate loop: an agent survives iff it is
active, has both coordinates, is within max_distance_km, and — when
quantity_tons is truthy — has available capacity at least the quantity. -/
def passesFilter (distF : ℚ → ℚ → ℚ → ℚ → ℚ) (req : MatchRequest) (a : AgentRec) : Bool :=
  a.isActive &&
  a.lat.isSome && a.lon.isSome &&
  decide (agentDist distF req a ≤ req.maxDistanceKm) &&
  !(qtyTruthy req.quantityTons && decide (a.available < req.quantityTons.getD 0))

/-- max(all_capacities) if all_capacities else 1, where all_capacities lists
available_capacity_tons over ALL fetched agents (filtered-out ones included). -/
def maxAvailable (agents : List AgentRec) : ℚ :=
  match agents.map (fun a => a.available) with
  | [] => 1
  | c :: cs => cs.foldl max c

/-- Proximity component: max(0, (max_dist - distance) / max_dist) * 40. -/
def proximityScore (maxDist dist : ℚ) : ℚ :=
  max 0 ((maxDist - dist) / maxDist) * 40

/-- Capacity component: (available / max_capacity) * 30 if max_capacity > 0
else 0. -/
def capacityScore (available maxCap : ℚ) : ℚ :=
  if maxCap > 0 then available / maxCap * 30 else 0

/-- Rating actually used: the computed reputation average if positive, else the
agent's static declared rating. -/
def ratingUsed (avgScore staticRating : ℚ) : ℚ :=
  if avgScore > 0 then avgScore else staticRating

/-- Rating component: (rating / 5.0) * 30. -/
def ratingScore (rating : ℚ) : ℚ :=
  rating / 5 * 30

/-- Total match score of one candidate, as the loop computes it. -/
def matchScoreOf (maxDist dist available maxCap rating : ℚ) : ℚ :=
  round2 (proximityScore maxDist dist + capacityScore available maxCap + ratingScore rating)

/-- The candidate entry built for a surviving agent. -/
def mkCandidate (distF : ℚ → ℚ → ℚ → ℚ → ℚ) (req : MatchRequest)
    (ratingsOf : String → List Rating) (agents : List AgentRec) (a : AgentRec) : Candidate :=
  let d := agentDist distF req a
  let avg := (computeReputation (ratingsOf a.id)).averageScore
  let rating := ratingUsed avg a.staticRating
  { agentId := a.id
    distanceKm := round2 d
    availableCapacityTons := a.available
    averageRating := rating
    matchScore := matchScoreOf req.maxDistanceKm d a.available (maxAvailable agents) rating }

/-- The candidates list built by the loop, in fetch order. -/
def matchCandidates (distF : ℚ → ℚ → ℚ → ℚ → ℚ) (req : MatchRequest)
    (ratingsOf : String → List Rating) (agents : List AgentRec) : List Candidate :=
  (agents.filter (passesFilter distF req)).map (mkCandidate distF req ratingsOf agents)

/-- The returned match results: candidates sorted by match_score descending
(Python list.sort with reverse=True is stable; List.mergeSort with the
greater-or-equal test is its stable counterpart).  Both match_agent's
all_matches / best_match payload and auto_match_and_notify's matches list are
this list. -/
def matchResults (distF : ℚ → ℚ → ℚ → ℚ → ℚ) (req : MatchRequest)
    (ratingsOf : String → List Rating) (agents : List AgentRec) : List Candidate :=
  (matchCandidates distF req ratingsOf agents).mergeSort
    (fun x y => decide (y.matchScore ≤ x.matchScore))

/-- One entry of the top-ranked agents response (get_top_ranked_agents),
restricted to the fields the claims are about.  average_rating here is the raw
reputation average: no static-rating fallback. -/
structure RankedEntry where
  agentId : String
  averageRating : ℚ
  totalRatings : ℕ
deriving Repr, DecidableEq

/-- Shallow embedding of get_top_ranked_agents (src/routers/agent_matching.py,
lines 214-245): keep active agents, attach the reputation average, sort
descending by it, truncate to the limit. -/
def topRankedAgents (ratingsOf : String → List Rating) (agents : List AgentRec)
    (limit : ℕ) : List RankedEntry :=
  (((agents.filter (fun a => a.isActive)).map (fun a =>
      ({ agentId := a.id
         averageRating := (computeReputation (ratingsOf a.id)).averageScore
         totalRatings := (computeReputation (ratingsOf a.id)).totalRatings } : RankedEntry))).mergeSort
    (fun x y => decide (y.averageRating ≤ x.averageRating))).take limit

/-!
Verification workflow: shallow embedding of start_verification
(src/routers/verification_service.py, lines 54-105) and
update_verification_status (lines 206-289).  The store is a DBState of row
lists; now_iso() is abstracted to a numeric timestamp parameter; uuid-based id
generation is abstracted to an id parameter.  The notification sink
(send_notification, src/routers/notification_service.py, lines 45-80) inserts a
notification row and returns it; its failure mode (swallowed exception,
returning None) is outside the store model, so in the model it always appends.
Only fields the claims are about are carried.
-/

/-- A products-table row, restricted to the fields the workflow reads or
writes. -/
structure Product where
  id : String
  status : String
  farmerId : Option String
  qualityGrade : Option String
  quantity : ℚ
  pricePerUnit : ℚ
  verifiedBy : Option String
  verificationDate : Option ℕ
deriving Repr, DecidableEq

/-- A verifications-table row, restricted to the fields the workflow reads or
writes.  start_verification's insert carries no farmer_id key, hence the
Option. -/
structure Verification where
  id : String
  productId : String
  agentId : String
  farmerId : Option String
  status : String
  originalGrade : Option String
  verifiedGrade : Option String
  notes : Option String
  verifiedQuantity : Option ℚ
  createdAt : Option ℕ
  verifiedAt : Option ℕ
deriving Repr, DecidableEq

/-- A notification row as inserted by send_notification, restricted to
recipient, type, related id and the SMS flag. -/
structure Notif where
  userId : String
  ntype : String
  relatedId : Option String
  sms : Bool
deriving Repr, DecidableEq

/-- The slice of the record store the workflow touches. -/
structure DBState where
  products : List Product
  verifications : List Verification
  notifs : List Notif
deriving Repr, DecidableEq

/-- Typed request errors raised by the workflow: HTTP 404 and the 400 conflict
on an already-verified product. -/
inductive VerifyError where
  | notFound
  | conflict
deriving Repr, DecidableEq

/-- The notification sink appending one row (send_notification). -/
def pushNotif (db : DBState) (userId ntype : String) (relatedId : Option String)
    (sms : Bool) : DBState :=
  { db with notifs := db.notifs ++ [⟨userId, ntype, relatedId, sms⟩] }

/-- Body of VerificationCreate restricted to the fields start_verification
reads. -/
structure VerificationCreate where
  agentId : String
  qualityGrade : Option String
  notes : Option String
deriving Repr, DecidableEq

/-- Shallow embedding of start_verification.  Returns the created record on
success; the state is returned unchanged on error, mirroring that both raises
happen before any store write. -/
def startVerification (db : DBState) (productId : String) (data : VerificationCreate)
    (newId : String) (now : ℕ) : Except VerifyError Verification × DBState :=
  match db.products.find? (fun p => p.id = productId) with
  | none => (Except.error VerifyError.notFound, db)
  | some product =>
    if product.status = "verified" then (Except.error VerifyError.conflict, db)
    else
      let newV : Verification :=
        { id := newId
          productId := productId
          agentId := data.agentId
          farmerId := none
          status := "in_progress"
          originalGrade := data.qualityGrade
          verifiedGrade := none
          notes := data.notes
          verifiedQuantity := none
          createdAt := some now
          verifiedAt := none }
      let db1 := { db with verifications := db.verifications ++ [newV] }
      let db2 := { db1 with products := db1.products.map (fun p =>
        if p.id = productId then { p with status := "pending_verification" } else p) }
      let db3 := pushNotif db2 data.agentId "listing_assigned" (some newId) true
      (Except.ok newV, db3)

/-- Body of VerificationStatusUpdate restricted to the fields the endpoint
reads. -/
structure StatusUpdate where
  status : String
  qualityGrade : Option String
  notes : Option String
  adjustedQuantity : Option ℚ
  adjustedPrice : Option ℚ
deriving Repr, DecidableEq

/-- Python truthiness of an optional string: None and "" are falsy. -/
def strTruthy : Option String → Bool
  | none => false
  | some s => s ≠ ""

/-- The v_update patch applied to the verification row. -/
def patchVerification (u : StatusUpdate) (now : ℕ) (w : Verification) : Verification :=
  let w := { w with status := u.status }
  let w := if strTruthy u.qualityGrade then { w with verifiedGrade := u.qualityGrade } else w
  let w := if strTruthy u.notes then { w with notes := u.notes } else w
  let w := match u.adjustedQuantity with
    | some q => { w with verifiedQuantity := some q }
    | none => w
  if u.status = "verified" then { w with verifiedAt := some now } else w

/-- The p_update patch applied to the product row when the new status is
verified, confirmed or adjusted. -/
def patchProductVerified (u : StatusUpdate) (agentId : String) (now : ℕ)
    (p : Product) : Product :=
  let p := { p with status := "verified", verifiedBy := some agentId, verificationDate := some now }
  let p := if strTruthy u.qualityGrade then { p with qualityGrade := u.qualityGrade } else p
  let p := match u.adjustedQuantity with
    | some q => { p with quantity := q }
    | none => p
  match u.adjustedPrice with
  | some pr => { p with pricePerUnit := pr }
  | none => p

/-- Shallow embedding of update_verification_status.  Returns the patched
verification row on success; the state is returned unchanged on the not-found
error, mirroring that the raise happens before any store write. -/
def updateVerificationStatus (db : DBState) (verificationId : String)
    (u : StatusUpdate) (now : ℕ) : Except VerifyError Verification × DBState :=
  match db.verifications.find? (fun v => v.id = verificationId) with
  | none => (Except.error VerifyError.notFound, db)
  | some v =>
    let db1 := { db with verifications := db.verifications.map (fun w =>
      if w.id = verificationId then patchVerification u now w else w) }
    let db2 :=
      if u.status = "verified" ∨ u.status = "confirmed" ∨ u.status = "adjusted" then
        { db1 with products := db1.products.map (fun p =>
          if p.id = v.productId then patchProductVerified u v.agentId now p else p) }
      else if u.status = "rejected" then
        { db1 with products := db1.products.map (fun p =>
          if p.id = v.productId then { p with status := "pending_verification" } else p) }
      else db1
    let db3 :=
      if u.status = "verified" ∨ u.status = "rejected" then
        let farmerId := if strTruthy v.farmerId then v.farmerId
          else match db2.products.find? (fun p => p.id = v.productId) with
            | some p => p.farmerId
            | none => none
        if strTruthy farmerId then
          pushNotif db2 (farmerId.getD "") "verification_complete" (some verificationId) true
        else db2
      else db2
    (Except.ok (patchVerification u now v), db3)

/-!
Helper lemmas: concrete evaluation of the rounding functions, fold bounds,
and breakdown accounting.
-/

theorem intFloor_eq_of {q : ℚ} {f : ℤ} (h1 : (f : ℚ) ≤ q) (h2 : q < (f : ℚ) + 1) :
    ⌊q⌋ = f :=
  Int.floor_eq_iff.mpr ⟨h1, by exact_mod_cast h2⟩

theorem roundHalfEven_eq_down {q : ℚ} {f : ℤ} (h1 : (f : ℚ) ≤ q)
    (h2 : q - (f : ℚ) < 1/2) : roundHalfEven q = f := by
  have hf : ⌊q⌋ = f := intFloor_eq_of h1 (by linarith)
  unfold roundHalfEven
  rw [ratFloor_eq_intFloor, hf, if_pos h2]

theorem roundHalfEven_eq_up {q : ℚ} {f : ℤ} (h1 : (f : ℚ) ≤ q)
    (h2 : 1/2 < q - (f : ℚ)) (h3 : q < (f : ℚ) + 1) : roundHalfEven q = f + 1 := by
  have hf : ⌊q⌋ = f := intFloor_eq_of h1 h3
  unfold roundHalfEven
  rw [ratFloor_eq_intFloor, hf, if_neg (by linarith), if_pos h2]

theorem round2_eq_down {q : ℚ} {f : ℤ} (h1 : (f : ℚ) ≤ q * 100)
    (h2 : q * 100 - (f : ℚ) < 1/2) : round2 q = (f : ℚ) / 100 := by
  unfold round2
  rw [roundHalfEven_eq_down h1 h2]

theorem round2_eq_up {q : ℚ} {f : ℤ} (h1 : (f : ℚ) ≤ q * 100)
    (h2 : 1/2 < q * 100 - (f : ℚ)) (h3 : q * 100 < (f : ℚ) + 1) :
    round2 q = ((f : ℚ) + 1) / 100 := by
  unfold round2
  rw [roundHalfEven_eq_up h1 h2 h3]
  push_cast
  ring

theorem foldl_max_init_le (l : List ℚ) : ∀ b : ℚ, b ≤ l.foldl max b := by
  induction l with
  | nil => intro b; simp
  | cons a t ih =>
      intro b
      calc b ≤ max b a := le_max_left b a
      _ ≤ t.foldl max (max b a) := ih (max b a)

theorem mem_le_foldl_max (l : List ℚ) : ∀ b : ℚ, ∀ x ∈ l, x ≤ l.foldl max b := by
  induction l with
  | nil => intro b x hx; simp at hx
  | cons a t ih =>
      intro b x hx
      rcases List.mem_cons.mp hx with rfl | hx
      · calc x ≤ max b x := le_max_right b x
        _ ≤ t.foldl max (max b x) := foldl_max_init_le t (max b x)
      · exact ih (max b a) x hx

/-- Every fetched agent's available capacity is at most the normalizing
maximum. -/
theorem available_le_maxAvailable {agents : List AgentRec} {a : AgentRec}
    (ha : a ∈ agents) : a.available ≤ maxAvailable agents := by
  unfold maxAvailable
  cases agents with
  | nil => simp at ha
  | cons x xs =>
      simp only [List.map_cons]
      rcases List.mem_cons.mp ha with rfl | ha
      · exact foldl_max_init_le (xs.map (fun a => a.available)) a.available
      · exact mem_le_foldl_max (xs.map (fun a => a.available)) x.available a.available
          (List.mem_map_of_mem (fun a => a.available) ha)

theorem ratingSum_aux_nonneg (R : List Rating) (h : ∀ r ∈ R, 0 ≤ r.score) :
    ∀ s : ℚ, 0 ≤ s → 0 ≤ R.foldl (fun s r => s + r.score) s := by
  induction R with
  | nil => intro s hs; simpa
  | cons a t ih =>
      intro s hs
      simp only [List.foldl_cons]
      exact ih (fun r hr => h r (List.mem_cons_of_mem a hr)) (s + a.score)
        (by have := h a (List.mem_cons_self a t); linarith)

theorem ratingSum_nonneg {R : List Rating} (h : ∀ r ∈ R, 0 ≤ r.score) :
    0 ≤ ratingSum R :=
  ratingSum_aux_nonneg R h 0 le_rfl

theorem ratingSum_aux_le (R : List Rating) (h : ∀ r ∈ R, r.score ≤ 5) :
    ∀ s : ℚ, R.foldl (fun s r => s + r.score) s ≤ s + 5 * R.length := by
  induction R with
  | nil => intro s; simp
  | cons a t ih =>
      intro s
      simp only [List.foldl_cons, List.length_cons]
      have h1 := ih (fun r hr => h r (List.mem_cons_of_mem a hr)) (s + a.score)
      have h2 := h a (List.mem_cons_self a t)
      push_cast
      push_cast at h1
      linarith

theorem ratingSum_le {R : List Rating} (h : ∀ r ∈ R, r.score ≤ 5) :
    ratingSum R ≤ 5 * R.length := by
  have := ratingSum_aux_le R h 0
  unfold ratingSum
  linarith

/-- Mean of a nonempty score list with scores in [0, 5] lies in [0, 5]. -/
theorem mean_bounds {R : List Rating} (hne : R ≠ [])
    (h : ∀ r ∈ R, 0 ≤ r.score ∧ r.score ≤ 5) :
    0 ≤ ratingSum R / R.length ∧ ratingSum R / R.length ≤ 5 := by
  have hlen : 0 < (R.length : ℚ) := by
    have := List.length_pos.mpr hne
    exact_mod_cast this
  constructor
  · exact div_nonneg (ratingSum_nonneg (fun r hr => (h r hr).1)) (le_of_lt hlen)
  · rw [div_le_iff₀ hlen]
    have := ratingSum_le (fun r hr => (h r hr).2)
    linarith

/-- Truncation of a score in [1, 5] lands in the integer range 1..5. -/
theorem pyTrunc_mem_range {q : ℚ} (h1 : 1 ≤ q) (h2 : q ≤ 5) :
    1 ≤ pyTrunc q ∧ pyTrunc q ≤ 5 := by
  unfold pyTrunc
  rw [if_pos (by linarith : (0:ℚ) ≤ q), ratFloor_eq_intFloor]
  constructor
  · exact_mod_cast Int.le_floor.mpr (by exact_mod_cast h1)
  · have : ⌊q⌋ ≤ ⌊(5:ℚ)⌋ := Int.floor_le_floor h2
    simpa using this

/-- Histogram counter for bucket key k (the dict entry breakdown[str(k)]). -/
def bucketCount (b : Breakdown) (k : ℤ) : ℕ :=
  if k = 1 then b.b1
  else if k = 2 then b.b2
  else if k = 3 then b.b3
  else if k = 4 then b.b4
  else if k = 5 then b.b5
  else 0

/-- Total of the five histogram counters. -/
def sumBuckets (b : Breakdown) : ℕ :=
  b.b1 + b.b2 + b.b3 + b.b4 + b.b5

set_option maxHeartbeats 1600000 in
theorem bucketCount_bump (b : Breakdown) (s : ℚ) (k : ℤ) (hk1 : 1 ≤ k) (hk5 : k ≤ 5) :
    bucketCount (bumpBreakdown b s) k
      = bucketCount b k + (if pyTrunc s = k then 1 else 0) := by
  unfold bumpBreakdown
  interval_cases k <;> split_ifs <;> simp_all [bucketCount]

theorem sumBuckets_bump (b : Breakdown) (s : ℚ) :
    sumBuckets (bumpBreakdown b s)
      = sumBuckets b + (if 1 ≤ pyTrunc s ∧ pyTrunc s ≤ 5 then 1 else 0) := by
  unfold bumpBreakdown sumBuckets
  split_ifs <;> simp_all <;> omega

theorem bucketCount_foldl (R : List Rating) (k : ℤ) (hk1 : 1 ≤ k) (hk5 : k ≤ 5) :
    ∀ b : Breakdown,
      bucketCount (R.foldl (fun b r => bumpBreakdown b r.score) b) k
        = bucketCount b k + (R.filter (fun r => pyTrunc r.score = k)).length := by
  induction R with
  | nil => intro b; simp
  | cons a t ih =>
      intro b
      simp only [List.foldl_cons, List.filter_cons]
      rw [ih (bumpBreakdown b a.score), bucketCount_bump b a.score k hk1 hk5]
      by_cases h : pyTrunc a.score = k
      · simp [h]
        omega
      · simp [h]

theorem sumBuckets_foldl (R : List Rating) :
    ∀ b : Breakdown,
      sumBuckets (R.foldl (fun b r => bumpBreakdown b r.score) b)
        = sumBuckets b
          + (R.filter (fun r => 1 ≤ pyTrunc r.score ∧ pyTrunc r.score ≤ 5)).length := by
  induction R with
  | nil => intro b; simp
  | cons a t ih =>
      intro b
      simp only [List.foldl_cons, List.filter_cons]
      rw [ih (bumpBreakdown b a.score), sumBuckets_bump b a.score]
      by_cases h : 1 ≤ pyTrunc a.score ∧ pyTrunc a.score ≤ 5
      · simp [h]
        omega
      · simp [h]

theorem bucketCount_mkBreakdown (R : List Rating) (k : ℤ) (hk1 : 1 ≤ k) (hk5 : k ≤ 5) :
    bucketCount (mkBreakdown R) k = (R.filter (fun r => pyTrunc r.score = k)).length := by
  unfold mkBreakdown
  have h0 : bucketCount ⟨0, 0, 0, 0, 0⟩ k = 0 := by
    unfold bucketCount
    split_ifs <;> rfl
  rw [bucketCount_foldl R k hk1 hk5, h0]
  omega

theorem sumBuckets_mkBreakdown (R : List Rating) :
    sumBuckets (mkBreakdown R)
      = (R.filter (fun r => 1 ≤ pyTrunc r.score ∧ pyTrunc r.score ≤ 5)).length := by
  unfold mkBreakdown
  rw [sumBuckets_foldl R]
  simp [sumBuckets]

/-- Tier order of the badge labels: Gold Seller > Trusted Seller >
Verified Seller > New Seller > none. -/
def tierOf : Option String → ℕ
  | some "Gold Seller" => 4
  | some "Trusted Seller" => 3
  | some "Verified Seller" => 2
  | some "New Seller" => 1
  | _ => 0

theorem tierOf_badgeOf_le_four (a : ℚ) (t : ℕ) : tierOf (badgeOf a t) ≤ 4 := by
  unfold badgeOf
  split_ifs <;> simp [tierOf]

theorem tier_ge_four_iff (a : ℚ) (t : ℕ) :
    4 ≤ tierOf (badgeOf a t) ↔ (9/2 ≤ a ∧ 5 ≤ t) := by
  unfold badgeOf
  split_ifs with h1 h2 h3 h4 <;> simp only [tierOf] <;> constructor <;> intro h <;>
    first
      | exact absurd h (by omega)
      | exact absurd ⟨h.1, h.2⟩ h1
      | exact ⟨h1.1, h1.2⟩
      | norm_num

theorem tier_ge_three_iff (a : ℚ) (t : ℕ) :
    3 ≤ tierOf (badgeOf a t) ↔ (4 ≤ a ∧ 3 ≤ t) := by
  unfold badgeOf
  split_ifs with h1 h2 h3 h4 <;> simp only [tierOf] <;> constructor <;> intro h <;>
    first
      | exact absurd h (by omega)
      | exact absurd ⟨h.1, h.2⟩ h2
      | exact ⟨h2.1, h2.2⟩
      | exact ⟨le_trans (by norm_num) h1.1, le_trans (by norm_num) h1.2⟩
      | norm_num

theorem tier_ge_two_iff (a : ℚ) (t : ℕ) :
    2 ≤ tierOf (badgeOf a t) ↔ 7/2 ≤ a := by
  unfold badgeOf
  split_ifs with h1 h2 h3 h4 <;> simp only [tierOf] <;> constructor <;> intro h <;>
    first
      | exact absurd h (by omega)
      | exact absurd h h3
      | exact h3
      | linarith [h1.1]
      | linarith [h2.1]
      | norm_num

theorem tier_ge_one_iff (a : ℚ) (t : ℕ) :
    1 ≤ tierOf (badgeOf a t) ↔ 5/2 ≤ a := by
  unfold badgeOf
  split_ifs with h1 h2 h3 h4 <;> simp only [tierOf] <;> constructor <;> intro h <;>
    first
      | exact absurd h (by omega)
      | exact absurd h h4
      | exact h4
      | linarith [h1.1]
      | linarith [h2.1]
      | linarith [h3]

theorem tier_mono_aux {a1 a2 : ℚ} {t1 t2 : ℕ} (ha : a1 ≤ a2) (ht : t1 ≤ t2) :
    tierOf (badgeOf a1 t1) ≤ tierOf (badgeOf a2 t2) := by
  have key : ∀ n, n ≤ tierOf (badgeOf a1 t1) → n ≤ tierOf (badgeOf a2 t2) := by
    intro n hn
    match n with
    | 0 => exact Nat.zero_le _
    | 1 =>
        exact (tier_ge_one_iff a2 t2).mpr
          (le_trans ((tier_ge_one_iff a1 t1).mp hn) ha)
    | 2 =>
        exact (tier_ge_two_iff a2 t2).mpr
          (le_trans ((tier_ge_two_iff a1 t1).mp hn) ha)
    | 3 =>
        have h := (tier_ge_three_iff a1 t1).mp hn
        exact (tier_ge_three_iff a2 t2).mpr ⟨le_trans h.1 ha, le_trans h.2 ht⟩
    | 4 =>
        have h := (tier_ge_four_iff a1 t1).mp hn
        exact (tier_ge_four_iff a2 t2).mpr ⟨le_trans h.1 ha, le_trans h.2 ht⟩
    | n + 5 =>
        have := tierOf_badgeOf_le_four a1 t1
        omega
  exact key _ le_rfl

/-- Field equations of computeReputation on a nonempty rating list. -/
theorem computeReputation_of_ne_nil {R : List Rating} (h : R ≠ []) :
    (computeReputation R).averageScore = round2 (ratingSum R / R.length) ∧
    (computeReputation R).totalRatings = R.length ∧
    (computeReputation R).breakdown = mkBreakdown R ∧
    (computeReputation R).categoryScores = groupScore categoryKey R ∧
    (computeReputation R).entityScores = groupScore entityKey R ∧
    (computeReputation R).badge
      = badgeOf (round2 (ratingSum R / R.length)) R.length := by
  cases R with
  | nil => exact absurd rfl h
  | cons a t => exact ⟨rfl, rfl, rfl, rfl, rfl, rfl⟩

/-- Helper to evaluate pyTrunc on concrete nonnegative rationals. -/
theorem pyTrunc_eq_of {q : ℚ} {f : ℤ} (h0 : 0 ≤ q) (h1 : (f : ℚ) ≤ q)
    (h2 : q < (f : ℚ) + 1) : pyTrunc q = f := by
  unfold pyTrunc
  rw [if_pos h0, ratFloor_eq_intFloor, intFloor_eq_of h1 h2]

/-- C4: for a nonempty rating set the reported average is the rounded mean of
all scores; each histogram bucket k in 1..5 counts exactly the ratings whose
integer-truncated score is k; the bucket counts sum to the number of ratings
whose truncated score lies in 1..5 (out-of-range scores are dropped from the
histogram though they count toward the average); in particular, when every
score lies in [1, 5] the bucket counts sum to the number of ratings. -/
theorem reputation_average_and_histogram (R : List Rating) (hne : R ≠ []) :
    (computeReputation R).averageScore = round2 (ratingSum R / R.length) ∧
    (∀ k : ℤ, 1 ≤ k → k ≤ 5 →
      bucketCount (computeReputation R).breakdown k
        = (R.filter (fun r => pyTrunc r.score = k)).length) ∧
    sumBuckets (computeReputation R).breakdown
      = (R.filter (fun r => 1 ≤ pyTrunc r.score ∧ pyTrunc r.score ≤ 5)).length ∧
    ((∀ r ∈ R, 1 ≤ r.score ∧ r.score ≤ 5) →
      sumBuckets (computeReputation R).breakdown = R.length) := by
  obtain ⟨havg, -, hbrk, -, -, -⟩ := computeReputation_of_ne_nil hne
  refine ⟨havg, ?_, ?_, ?_⟩
  · intro k hk1 hk5
    rw [hbrk, bucketCount_mkBreakdown R k hk1 hk5]
  · rw [hbrk, sumBuckets_mkBreakdown R]
  · intro hall
    rw [hbrk, sumBuckets_mkBreakdown R]
    have : R.filter (fun r => 1 ≤ pyTrunc r.score ∧ pyTrunc r.score ≤ 5) = R := by
      apply List.filter_eq_self.mpr
      intro r hr
      have h := pyTrunc_mem_range (hall r hr).1 (hall r hr).2
      simpa using h
    rw [this]

/-- C4 witness: a single rating of 4.7 — the average is 4.7 exactly, the score
buckets under key 4 (integer truncation), and the bucket counts sum to 1. -/
theorem reputation_average_and_histogram_witness :
    ([({ score := 47/10, category := none, entityType := none } : Rating)] ≠ []) ∧
    (computeReputation [({ score := 47/10, category := none, entityType := none } : Rating)]).averageScore = 47/10 ∧
    bucketCount (computeReputation [({ score := 47/10, category := none, entityType := none } : Rating)]).breakdown 4 = 1 ∧
    sumBuckets (computeReputation [({ score := 47/10, category := none, entityType := none } : Rating)]).breakdown = 1 := by
  have h := reputation_average_and_histogram
    [({ score := 47/10, category := none, entityType := none } : Rating)] (by simp)
  have htr : pyTrunc ((47:ℚ)/10) = 4 := pyTrunc_eq_of (by norm_num) (by norm_num) (by norm_num)
  refine ⟨by simp, ?_, ?_, ?_⟩
  · rw [h.1]
    have : ratingSum [({ score := 47/10, category := none, entityType := none } : Rating)] = 47/10 := by
      simp [ratingSum]
    rw [this]
    simp only [List.length_singleton, Nat.cast_one, div_one]
    rw [round2_eq_down (f := 470) (by norm_num) (by norm_num)]
    norm_num
  · rw [h.2.1 4 (by norm_num) (by norm_num)]
    simp [htr]
  · exact h.2.2.2 (by intro r hr; simp at hr; subst hr; norm_num)

/-- C5: the zero-ratings early return yields average 0.0, count 0, an all-zero
histogram, empty category and entity maps and no badge; on a nonempty rating
set the badge is the first-matching-rule assignment over the rounded average
and the count. -/
theorem reputation_empty_state_and_badge_rules :
    ((computeReputation []).averageScore = 0 ∧
     (computeReputation []).totalRatings = 0 ∧
     (computeReputation []).breakdown = ⟨0, 0, 0, 0, 0⟩ ∧
     (∀ s, (computeReputation []).categoryScores s = none) ∧
     (∀ s, (computeReputation []).entityScores s = none) ∧
     (computeReputation []).badge = none) ∧
    (∀ R : List Rating, R ≠ [] →
      (computeReputation R).badge
        = badgeOf (computeReputation R).averageScore (computeReputation R).totalRatings) ∧
    ∀ (a : ℚ) (t : ℕ),
      (a ≥ 9/2 ∧ t ≥ 5 → badgeOf a t = some "Gold Seller") ∧
      (¬(a ≥ 9/2 ∧ t ≥ 5) → a ≥ 4 ∧ t ≥ 3 → badgeOf a t = some "Trusted Seller") ∧
      (¬(a ≥ 9/2 ∧ t ≥ 5) → ¬(a ≥ 4 ∧ t ≥ 3) → a ≥ 7/2 →
        badgeOf a t = some "Verified Seller") ∧
      (¬(a ≥ 9/2 ∧ t ≥ 5) → ¬(a ≥ 4 ∧ t ≥ 3) → ¬(a ≥ 7/2) → a ≥ 5/2 →
        badgeOf a t = some "New Seller") ∧
      (¬(a ≥ 9/2 ∧ t ≥ 5) → ¬(a ≥ 4 ∧ t ≥ 3) → ¬(a ≥ 7/2) → ¬(a ≥ 5/2) →
        badgeOf a t = none) := by
  refine ⟨⟨rfl, rfl, rfl, fun s => rfl, fun s => rfl, rfl⟩, ?_, ?_⟩
  · intro R hR
    obtain ⟨havg, htot, -, -, -, hbadge⟩ := computeReputation_of_ne_nil hR
    rw [hbadge, havg, htot]
  · intro a t
    refine ⟨?_, ?_, ?_, ?_, ?_⟩
    · intro h1
      unfold badgeOf
      rw [if_pos h1]
    · intro h1 h2
      unfold badgeOf
      rw [if_neg h1, if_pos h2]
    · intro h1 h2 h3
      unfold badgeOf
      rw [if_neg h1, if_neg h2, if_pos h3]
    · intro h1 h2 h3 h4
      unfold badgeOf
      rw [if_neg h1, if_neg h2, if_neg h3, if_pos h4]
    · intro h1 h2 h3 h4
      unfold badgeOf
      rw [if_neg h1, if_neg h2, if_neg h3, if_neg h4]

/-- C5 witness: five ratings of 5 give the Gold Seller badge; the empty rating
set gives the zero state. -/
theorem reputation_empty_state_and_badge_rules_witness :
    (computeReputation []).badge = none ∧
    (computeReputation (List.replicate 5 ({ score := 5, category := none, entityType := none } : Rating))).badge
      = some "Gold Seller" := by
  have h := reputation_empty_state_and_badge_rules
  refine ⟨h.1.2.2.2.2.2, ?_⟩
  have hne : (List.replicate 5 ({ score := 5, category := none, entityType := none } : Rating)) ≠ [] := by
    simp
  rw [h.2.1 _ hne]
  have havg := (computeReputation_of_ne_nil hne).1
  have htot := (computeReputation_of_ne_nil hne).2.1
  have hsum : ratingSum (List.replicate 5 ({ score := 5, category := none, entityType := none } : Rating)) = 25 := by
    simp [ratingSum, List.replicate]
    norm_num
  rw [havg, htot, hsum]
  have h5 : round2 ((25:ℚ) / (List.replicate 5 ({ score := 5, category := none, entityType := none } : Rating)).length) = 5 := by
    simp only [List.length_replicate, Nat.cast_ofNat]
    rw [round2_eq_down (f := 500) (by norm_num) (by norm_num)]
    norm_num
  rw [h5]
  exact (h.2.2 5 _).1 ⟨by norm_num, by simp⟩

/-- C6: badge assignment is monotone — with the count fixed, a higher or equal
average never yields a strictly lower badge tier, and with the average fixed, a
higher or equal count never yields a strictly lower badge tier (tier order:
Gold Seller > Trusted Seller > Verified Seller > New Seller > none). -/
theorem badge_tier_monotone :
    (∀ (a1 a2 : ℚ) (t : ℕ), a1 ≤ a2 →
      tierOf (badgeOf a1 t) ≤ tierOf (badgeOf a2 t)) ∧
    (∀ (a : ℚ) (t1 t2 : ℕ), t1 ≤ t2 →
      tierOf (badgeOf a t1) ≤ tierOf (badgeOf a t2)) :=
  ⟨fun _ _ _ ha => tier_mono_aux ha le_rfl,
   fun _ _ _ ht => tier_mono_aux le_rfl ht⟩

/-- C6 witness: raising the average from 4 to 4.5 at count 3, and the count
from 3 to 5 at average 4.5, never lowers the tier. -/
theorem badge_tier_monotone_witness :
    tierOf (badgeOf 4 3) ≤ tierOf (badgeOf (9/2) 3) ∧
    tierOf (badgeOf (9/2) 3) ≤ tierOf (badgeOf (9/2) 5) :=
  ⟨badge_tier_monotone.1 4 (9/2) 3 (by norm_num),
   badge_tier_monotone.2 (9/2) 3 5 (by norm_num)⟩

/-!
Matching-engine lemmas and the spec-side capacity formulas for the refinement
comparison of C1.
-/

/-- Capacity component exactly as the claim words it: (available / maximum
available over all fetched agents) * 30, and 0 for every candidate when that
maximum is 0.  Transcribed from the spec text, not from the source, for
comparison against capacityScore. -/
def specCapacityScore (available maxCap : ℚ) : ℚ :=
  if maxCap = 0 then 0 else available / maxCap * 30

/-- Capacity component as the amended claim words it: (available / maximum
available over all fetched agents) * 30, and 0 for every candidate when that
maximum is not positive. -/
def specCapacityScoreAmended (available maxCap : ℚ) : ℚ :=
  if maxCap ≤ 0 then 0 else available / maxCap * 30

theorem capacityScore_eq_amended (available maxCap : ℚ) :
    capacityScore available maxCap = specCapacityScoreAmended available maxCap := by
  unfold capacityScore specCapacityScoreAmended
  rcases le_or_lt maxCap 0 with h | h
  · rw [if_neg (not_lt.mpr h), if_pos h]
  · rw [if_pos h, if_neg (not_le.mpr h)]

theorem passesFilter_iff {distF : ℚ → ℚ → ℚ → ℚ → ℚ} {req : MatchRequest}
    {a : AgentRec} :
    passesFilter distF req a = true ↔
      a.isActive = true ∧ a.lat.isSome = true ∧ a.lon.isSome = true ∧
      agentDist distF req a ≤ req.maxDistanceKm ∧
      (∀ q : ℚ, req.quantityTons = some q → q ≠ 0 → q ≤ a.available) := by
  unfold passesFilter qtyTruthy
  cases hq : req.quantityTons with
  | none =>
      simp [hq]
      tauto
  | some q =>
      simp only [hq, Bool.and_eq_true, Bool.not_eq_true', Bool.and_eq_false_iff,
        decide_eq_true_eq, decide_eq_false_iff_not, Option.getD_some, Option.some.injEq,
        not_not, Option.isSome]
      constructor
      · rintro ⟨⟨⟨⟨h1, h2⟩, h3⟩, h4⟩, h5⟩
        refine ⟨h1, h2, h3, h4, ?_⟩
        rintro q' rfl hq0
        rcases h5 with h | h
        · exact absurd h hq0
        · exact not_lt.mp h
      · rintro ⟨h1, h2, h3, h4, h5⟩
        refine ⟨⟨⟨⟨h1, h2⟩, h3⟩, h4⟩, ?_⟩
        by_cases hq0 : q = 0
        · left
          simp [hq0]
        · right
          exact not_lt.mpr (h5 q rfl hq0)

theorem mem_matchResults_iff {distF : ℚ → ℚ → ℚ → ℚ → ℚ} {req : MatchRequest}
    {ratingsOf : String → List Rating} {agents : List AgentRec} {c : Candidate} :
    c ∈ matchResults distF req ratingsOf agents ↔
      ∃ a, a ∈ agents ∧ passesFilter distF req a = true ∧
        c = mkCandidate distF req ratingsOf agents a := by
  unfold matchResults matchCandidates
  rw [List.mem_mergeSort, List.mem_map]
  constructor
  · rintro ⟨a, ha, rfl⟩
    exact ⟨a, (List.mem_filter.mp ha).1, (List.mem_filter.mp ha).2, rfl⟩
  · rintro ⟨a, ha, hf, rfl⟩
    exact ⟨a, List.mem_filter.mpr ⟨ha, hf⟩, rfl⟩

theorem mkCandidate_fields (distF : ℚ → ℚ → ℚ → ℚ → ℚ) (req : MatchRequest)
    (ratingsOf : String → List Rating) (agents : List AgentRec) (a : AgentRec) :
    (mkCandidate distF req ratingsOf agents a).agentId = a.id ∧
    (mkCandidate distF req ratingsOf agents a).distanceKm
      = round2 (agentDist distF req a) ∧
    (mkCandidate distF req ratingsOf agents a).availableCapacityTons = a.available ∧
    (mkCandidate distF req ratingsOf agents a).averageRating
      = ratingUsed (computeReputation (ratingsOf a.id)).averageScore a.staticRating ∧
    (mkCandidate distF req ratingsOf agents a).matchScore
      = matchScoreOf req.maxDistanceKm (agentDist distF req a) a.available
          (maxAvailable agents)
          (ratingUsed (computeReputation (ratingsOf a.id)).averageScore a.staticRating) :=
  ⟨rfl, rfl, rfl, rfl, rfl⟩

theorem proximityScore_nonneg (maxD d : ℚ) : 0 ≤ proximityScore maxD d := by
  unfold proximityScore
  exact mul_nonneg (le_max_left 0 _) (by norm_num)

theorem proximityScore_le_40 {maxD d : ℚ} (h0 : 0 ≤ d) (h1 : d ≤ maxD) :
    proximityScore maxD d ≤ 40 := by
  unfold proximityScore
  rcases lt_trichotomy maxD 0 with hm | hm | hm
  · linarith
  · subst hm
    simp [div_zero]
  · have hdiv : (maxD - d) / maxD ≤ 1 := by
      rw [div_le_one hm]
      linarith
    have hmax : max 0 ((maxD - d) / maxD) ≤ 1 := max_le (by norm_num) hdiv
    calc max 0 ((maxD - d) / maxD) * 40 ≤ 1 * 40 :=
          mul_le_mul_of_nonneg_right hmax (by norm_num)
    _ = 40 := by norm_num

theorem proximityScore_anti {maxD d1 d2 : ℚ} (hm : 0 ≤ maxD) (h : d1 ≤ d2) :
    proximityScore maxD d2 ≤ proximityScore maxD d1 := by
  unfold proximityScore
  rcases eq_or_lt_of_le hm with hm0 | hm0
  · rw [← hm0]
    simp [div_zero]
  · have hdiv : (maxD - d2) / maxD ≤ (maxD - d1) / maxD := by
      apply div_le_div_of_nonneg_right ?_ (le_of_lt hm0)
      linarith
    exact mul_le_mul_of_nonneg_right (max_le_max le_rfl hdiv) (by norm_num)

theorem capacityScore_bounds {av mc : ℚ} (h0 : 0 ≤ av) (h1 : av ≤ mc) :
    0 ≤ capacityScore av mc ∧ capacityScore av mc ≤ 30 := by
  unfold capacityScore
  split_ifs with h
  · constructor
    · exact mul_nonneg (div_nonneg h0 (le_of_lt h)) (by norm_num)
    · have hdiv : av / mc ≤ 1 := (div_le_one h).mpr h1
      calc av / mc * 30 ≤ 1 * 30 := mul_le_mul_of_nonneg_right hdiv (by norm_num)
      _ = 30 := by norm_num
  · norm_num

theorem ratingScore_bounds {r : ℚ} (h0 : 0 ≤ r) (h1 : r ≤ 5) :
    0 ≤ ratingScore r ∧ ratingScore r ≤ 30 := by
  unfold ratingScore
  constructor <;> linarith

theorem averageScore_bounds {R : List Rating}
    (h : ∀ r ∈ R, 0 ≤ r.score ∧ r.score ≤ 5) :
    0 ≤ (computeReputation R).averageScore ∧ (computeReputation R).averageScore ≤ 5 := by
  cases R with
  | nil => norm_num [computeReputation]
  | cons a t =>
      have hne : a :: t ≠ [] := by simp
      have havg := (computeReputation_of_ne_nil hne).1
      rw [havg]
      obtain ⟨hm0, hm5⟩ := mean_bounds hne h
      refine ⟨round2_nonneg hm0, ?_⟩
      have := round2_le_int (b := 5) (by exact_mod_cast hm5)
      exact_mod_cast this

theorem ratingUsed_bounds {avg st : ℚ} (h1 : 0 ≤ avg) (h2 : avg ≤ 5)
    (h3 : 0 ≤ st) (h4 : st ≤ 5) :
    0 ≤ ratingUsed avg st ∧ ratingUsed avg st ≤ 5 := by
  unfold ratingUsed
  split_ifs <;> exact ⟨by assumption, by assumption⟩

/-- C3: with rating scores and static declared ratings in [0, 5], capacities
nonnegative, and the distance oracle nonnegative (haversine always is), every
returned candidate's match score lies in [0, 100]; and the scoring formula is
monotonically non-increasing in distance, other inputs held fixed. -/
theorem match_score_bounds_and_distance_mono :
    (∀ (distF : ℚ → ℚ → ℚ → ℚ → ℚ) (req : MatchRequest)
        (ratingsOf : String → List Rating) (agents : List AgentRec),
      (∀ la lo aa ao, 0 ≤ distF la lo aa ao) →
      (∀ a ∈ agents, 0 ≤ a.available) →
      (∀ a ∈ agents, (∀ r ∈ ratingsOf a.id, 0 ≤ r.score ∧ r.score ≤ 5) ∧
        0 ≤ a.staticRating ∧ a.staticRating ≤ 5) →
      ∀ c ∈ matchResults distF req ratingsOf agents,
        0 ≤ c.matchScore ∧ c.matchScore ≤ 100) ∧
    (∀ maxD d1 d2 av mc r : ℚ, 0 ≤ maxD → d1 ≤ d2 →
      matchScoreOf maxD d2 av mc r ≤ matchScoreOf maxD d1 av mc r) := by
  constructor
  · intro distF req ratingsOf agents hd hcap hr c hc
    obtain ⟨a, ha, hf, rfl⟩ := mem_matchResults_iff.mp hc
    obtain ⟨-, -, -, hdist, -⟩ := passesFilter_iff.mp hf
    have hscore := (mkCandidate_fields distF req ratingsOf agents a).2.2.2.2
    rw [hscore]
    unfold matchScoreOf
    have hd0 : 0 ≤ agentDist distF req a := hd _ _ _ _
    have hprox1 := proximityScore_nonneg req.maxDistanceKm (agentDist distF req a)
    have hprox2 := proximityScore_le_40 hd0 hdist
    have hcap1 := capacityScore_bounds (hcap a ha) (available_le_maxAvailable ha)
    obtain ⟨havg1, havg2⟩ := averageScore_bounds (hr a ha).1
    obtain ⟨hru1, hru2⟩ := ratingUsed_bounds havg1 havg2 (hr a ha).2.1 (hr a ha).2.2
    have hrs := ratingScore_bounds hru1 hru2
    constructor
    · exact round2_nonneg (by linarith [hcap1.1, hrs.1])
    · have : proximityScore req.maxDistanceKm (agentDist distF req a)
          + capacityScore a.available (maxAvailable agents)
          + ratingScore (ratingUsed (computeReputation (ratingsOf a.id)).averageScore
              a.staticRating) ≤ ((100 : ℤ) : ℚ) := by
        push_cast
        linarith [hcap1.2, hrs.2]
      have := round2_le_int this
      exact_mod_cast this
  · intro maxD d1 d2 av mc r hm h
    unfold matchScoreOf
    exact round2_mono (by linarith [proximityScore_anti hm h])

/-- A distance oracle that reports distance 0 everywhere, as haversine does
when the agent sits at the farmer's exact coordinates. -/
def distZero : ℚ → ℚ → ℚ → ℚ → ℚ := fun _ _ _ _ => 0

/-- A ratings table with no rating rows for any user. -/
def noRatings : String → List Rating := fun _ => []

/-- An active agent at the farmer's location with capacity 10 and static rating
3. -/
def agentB : AgentRec :=
  { id := "B1", isActive := true, lat := some 0, lon := some 0,
    available := 10, staticRating := 3 }

/-- A match request at the origin asking for 5 tons within 100 km. -/
def reqB : MatchRequest :=
  { farmerLat := 0, farmerLon := 0, quantityTons := some 5, maxDistanceKm := 100 }

theorem agentB_passes : passesFilter distZero reqB agentB = true := by
  apply passesFilter_iff.mpr
  refine ⟨rfl, rfl, rfl, by norm_num [agentDist, distZero, reqB], ?_⟩
  intro q hq hq0
  simp only [reqB, Option.some.injEq] at hq
  rw [← hq]
  norm_num [agentB]

theorem candB_mem : mkCandidate distZero reqB noRatings [agentB] agentB
    ∈ matchResults distZero reqB noRatings [agentB] :=
  mem_matchResults_iff.mpr ⟨agentB, by simp, agentB_passes, rfl⟩

/-- C3 witness: the concrete candidate for agentB has a score in [0, 100], and
the scoring formula does not increase when the distance grows from 0 to 1. -/
theorem match_score_bounds_and_distance_mono_witness :
    (0 ≤ (mkCandidate distZero reqB noRatings [agentB] agentB).matchScore ∧
      (mkCandidate distZero reqB noRatings [agentB] agentB).matchScore ≤ 100) ∧
    matchScoreOf 100 1 10 10 3 ≤ matchScoreOf 100 0 10 10 3 := by
  refine ⟨?_, match_score_bounds_and_distance_mono.2 100 0 1 10 10 3 (by norm_num) (by norm_num)⟩
  apply match_score_bounds_and_distance_mono.1 distZero reqB noRatings [agentB]
  · intro la lo aa ao
    norm_num [distZero]
  · intro a ha
    simp only [List.mem_singleton] at ha
    subst ha
    norm_num [agentB]
  · intro a ha
    simp only [List.mem_singleton] at ha
    subst ha
    refine ⟨?_, by norm_num [agentB], by norm_num [agentB]⟩
    intro r hr
    simp [noRatings] at hr
  · exact candB_mem

/-- C1 amended: every returned candidate of the match operation (and of the
notify variant, which runs the identical loop) carries match score
round2(proximity + capacity + reputation), where capacity is
(available / maximum available over all fetched agents) * 30 and 0 for every
candidate when that maximum is not positive (the claim said: when it is 0). -/
theorem match_score_formula :
    ∀ (distF : ℚ → ℚ → ℚ → ℚ → ℚ) (req : MatchRequest)
      (ratingsOf : String → List Rating) (agents : List AgentRec),
      ∀ c ∈ matchResults distF req ratingsOf agents,
        ∃ a, a ∈ agents ∧ c.agentId = a.id ∧
          c.averageRating
            = ratingUsed (computeReputation (ratingsOf a.id)).averageScore a.staticRating ∧
          c.matchScore
            = round2 (proximityScore req.maxDistanceKm (agentDist distF req a)
              + specCapacityScoreAmended a.available (maxAvailable agents)
              + ratingScore (ratingUsed (computeReputation (ratingsOf a.id)).averageScore
                  a.staticRating)) := by
  intro distF req ratingsOf agents c hc
  obtain ⟨a, ha, hf, rfl⟩ := mem_matchResults_iff.mp hc
  obtain ⟨h1, -, -, h4, h5⟩ := mkCandidate_fields distF req ratingsOf agents a
  refine ⟨a, ha, h1, h4, ?_⟩
  rw [h5]
  unfold matchScoreOf
  rw [capacityScore_eq_amended]

/-- The inputs falsifying C1 as stated: a single fetched agent at the farmer's
location with negative available capacity, so the normalizing maximum is
negative rather than zero. -/
def agentNC : AgentRec :=
  { id := "A1", isActive := true, lat := some 0, lon := some 0,
    available := -5, staticRating := 3 }

/-- A match request at the origin with no quantity, cutoff 100 km. -/
def reqNC : MatchRequest :=
  { farmerLat := 0, farmerLon := 0, quantityTons := none, maxDistanceKm := 100 }

theorem agentNC_passes : passesFilter distZero reqNC agentNC = true := by
  apply passesFilter_iff.mpr
  refine ⟨rfl, rfl, rfl, by norm_num [agentDist, distZero, reqNC], ?_⟩
  intro q hq
  simp [reqNC] at hq

theorem matchResults_NC :
    matchResults distZero reqNC noRatings [agentNC]
      = [mkCandidate distZero reqNC noRatings [agentNC] agentNC] := by
  unfold matchResults matchCandidates
  rw [List.filter_cons, if_pos agentNC_passes]
  simp

/-- C1 counterexample: with every fetched capacity negative the code's score is
58 (capacity component 0 since the maximum is not positive), while the claim's
formula — capacity 0 only when the maximum is exactly 0 — gives 88 at the same
candidate. -/
theorem match_score_formula_cex :
    (matchResults distZero reqNC noRatings [agentNC]).map (fun c => c.agentId) = ["A1"] ∧
    (matchResults distZero reqNC noRatings [agentNC]).map (fun c => c.matchScore) = [58] ∧
    round2 (proximityScore reqNC.maxDistanceKm (agentDist distZero reqNC agentNC)
      + specCapacityScore agentNC.available (maxAvailable [agentNC])
      + ratingScore (ratingUsed (computeReputation (noRatings agentNC.id)).averageScore
          agentNC.staticRating)) = 88 ∧
    (58 : ℚ) ≠ 88 := by
  have hmax : maxAvailable [agentNC] = -5 := rfl
  have havg : (computeReputation (noRatings agentNC.id)).averageScore = 0 := rfl
  have hru : ratingUsed 0 agentNC.staticRating = 3 := by
    norm_num [ratingUsed, agentNC]
  have hprox : proximityScore (100 : ℚ) 0 = 40 := by
    norm_num [proximityScore]
  have hdist : agentDist distZero reqNC agentNC = 0 := rfl
  refine ⟨?_, ?_, ?_, by norm_num⟩
  · rw [matchResults_NC]
    rfl
  · rw [matchResults_NC]
    have h5 := (mkCandidate_fields distZero reqNC noRatings [agentNC] agentNC).2.2.2.2
    simp only [List.map_cons, List.map_nil, h5]
    unfold matchScoreOf
    rw [hmax, havg, hru, hdist]
    have hcap : capacityScore agentNC.available (-5 : ℚ) = 0 := by
      norm_num [capacityScore]
    rw [hcap]
    have hreq : reqNC.maxDistanceKm = 100 := rfl
    rw [hreq, hprox]
    have hrs : ratingScore (3 : ℚ) = 18 := by
      norm_num [ratingScore]
    rw [hrs]
    norm_num
    rw [round2_eq_down (f := 5800) (by norm_num) (by norm_num)]
    norm_num
  · rw [hmax, havg, hru, hdist]
    have hcap : specCapacityScore agentNC.available (-5 : ℚ) = 30 := by
      norm_num [specCapacityScore, agentNC]
    rw [hcap]
    have hreq : reqNC.maxDistanceKm = 100 := rfl
    rw [hreq, hprox]
    have hrs : ratingScore (3 : ℚ) = 18 := by
      norm_num [ratingScore]
    rw [hrs]
    norm_num
    rw [round2_eq_down (f := 8800) (by norm_num) (by norm_num)]
    norm_num

/-- C1 witness: the amended formula theorem applied to the concrete candidate
for agentB. -/
theorem match_score_formula_witness :
    ∃ a, a ∈ [agentB] ∧
      (mkCandidate distZero reqB noRatings [agentB] agentB).agentId = a.id ∧
      (mkCandidate distZero reqB noRatings [agentB] agentB).averageRating
        = ratingUsed (computeReputation (noRatings a.id)).averageScore a.staticRating ∧
      (mkCandidate distZero reqB noRatings [agentB] agentB).matchScore
        = round2 (proximityScore reqB.maxDistanceKm (agentDist distZero reqB a)
          + specCapacityScoreAmended a.available (maxAvailable [agentB])
          + ratingScore (ratingUsed (computeReputation (noRatings a.id)).averageScore
              a.staticRating)) :=
  match_score_formula distZero reqB noRatings [agentB] _ candB_mem

/-- C2 amended: every candidate appearing in match results stems from a fetched
agent that is active, has both coordinates, lies within maxDistanceKm, and —
when a nonzero quantity is requested (the claim said: when a quantity is
requested) — has available capacity at least the requested quantity. -/
theorem match_filter_invariant :
    ∀ (distF : ℚ → ℚ → ℚ → ℚ → ℚ) (req : MatchRequest)
      (ratingsOf : String → List Rating) (agents : List AgentRec),
      ∀ c ∈ matchResults distF req ratingsOf agents,
        ∃ a, a ∈ agents ∧ c.agentId = a.id ∧ c.availableCapacityTons = a.available ∧
          a.isActive = true ∧ a.lat.isSome = true ∧ a.lon.isSome = true ∧
          agentDist distF req a ≤ req.maxDistanceKm ∧
          (∀ q : ℚ, req.quantityTons = some q → q ≠ 0 → q ≤ a.available) := by
  intro distF req ratingsOf agents c hc
  obtain ⟨a, ha, hf, rfl⟩ := mem_matchResults_iff.mp hc
  obtain ⟨h1, h2, h3, h4, h5⟩ := passesFilter_iff.mp hf
  obtain ⟨f1, -, f3, -, -⟩ := mkCandidate_fields distF req ratingsOf agents a
  exact ⟨a, ha, f1, f3, h1, h2, h3, h4, h5⟩

/-- The inputs falsifying C2 as stated: the requested quantity 0.0 is falsy in
Python, so the capacity guard is skipped and an agent with available capacity
-1 < 0 still appears in the results. -/
def agentNC2 : AgentRec :=
  { id := "A2", isActive := true, lat := some 0, lon := some 0,
    available := -1, staticRating := 3 }

/-- A match request at the origin that specifies the quantity 0. -/
def reqZ : MatchRequest :=
  { farmerLat := 0, farmerLon := 0, quantityTons := some 0, maxDistanceKm := 100 }

theorem agentNC2_passes : passesFilter distZero reqZ agentNC2 = true := by
  apply passesFilter_iff.mpr
  refine ⟨rfl, rfl, rfl, by norm_num [agentDist, distZero, reqZ], ?_⟩
  intro q hq hq0
  simp only [reqZ, Option.some.injEq] at hq
  exact absurd hq.symm hq0

/-- C2 counterexample: a quantity is specified (0 tons), the only fetched
agent's available capacity (-1) is less than it, yet that agent appears in the
returned match results. -/
theorem match_filter_invariant_cex :
    reqZ.quantityTons = some 0 ∧
    agentNC2.available < 0 ∧
    (matchResults distZero reqZ noRatings [agentNC2]).map (fun c => c.agentId) = ["A2"] := by
  refine ⟨rfl, by norm_num [agentNC2], ?_⟩
  unfold matchResults matchCandidates
  rw [List.filter_cons, if_pos agentNC2_passes]
  simp
  rfl

/-- C2 witness: the amended filtering invariant applied to the concrete
candidate for agentB. -/
theorem match_filter_invariant_witness :
    ∃ a, a ∈ [agentB] ∧
      (mkCandidate distZero reqB noRatings [agentB] agentB).agentId = a.id ∧
      (mkCandidate distZero reqB noRatings [agentB] agentB).availableCapacityTons
        = a.available ∧
      a.isActive = true ∧ a.lat.isSome = true ∧ a.lon.isSome = true ∧
      agentDist distZero reqB a ≤ reqB.maxDistanceKm ∧
      (∀ q : ℚ, reqB.quantityTons = some q → q ≠ 0 → q ≤ a.available) :=
  match_filter_invariant distZero reqB noRatings [agentB] _ candB_mem

/-- C10: top-ranked entries report the raw reputation average (0.0 for an
agent with no ratings — the static-rating fallback of match scoring is not
applied), the returned list is sorted by that average descending, and hence an
entry with average 0 sits strictly after every entry with a positive average. -/
theorem top_ranked_no_fallback_ordering :
    ∀ (ratingsOf : String → List Rating) (agents : List AgentRec) (limit : ℕ),
      (∀ e ∈ topRankedAgents ratingsOf agents limit,
        e.averageRating = (computeReputation (ratingsOf e.agentId)).averageScore ∧
        (ratingsOf e.agentId = [] → e.averageRating = 0)) ∧
      (∀ i j : Fin (topRankedAgents ratingsOf agents limit).length, i < j →
        ((topRankedAgents ratingsOf agents limit).get j).averageRating
          ≤ ((topRankedAgents ratingsOf agents limit).get i).averageRating) ∧
      (∀ i j : Fin (topRankedAgents ratingsOf agents limit).length,
        ((topRankedAgents ratingsOf agents limit).get i).averageRating = 0 →
        0 < ((topRankedAgents ratingsOf agents limit).get j).averageRating → j < i) := by
  intro ratingsOf agents limit
  have hpair : ∀ i j : Fin (topRankedAgents ratingsOf agents limit).length, i < j →
      ((topRankedAgents ratingsOf agents limit).get j).averageRating
        ≤ ((topRankedAgents ratingsOf agents limit).get i).averageRating := by
    have hsorted := @List.sorted_mergeSort RankedEntry
      (fun x y : RankedEntry => decide (y.averageRating ≤ x.averageRating))
      (by intro a b c h1 h2
          simp only [decide_eq_true_eq] at h1 h2 ⊢
          exact le_trans h2 h1)
      (by intro a b
          simp only [Bool.or_eq_true, decide_eq_true_eq]
          exact le_total b.averageRating a.averageRating)
      ((agents.filter (fun a => a.isActive)).map (fun a =>
        ({ agentId := a.id
           averageRating := (computeReputation (ratingsOf a.id)).averageScore
           totalRatings := (computeReputation (ratingsOf a.id)).totalRatings } : RankedEntry)))
    have htake := hsorted.sublist (List.take_sublist limit _)
    have := List.pairwise_iff_get.mp htake
    intro i j hij
    have h := this i j hij
    simp only [decide_eq_true_eq] at h
    exact h
  refine ⟨?_, hpair, ?_⟩
  · intro e he
    have he' : e ∈ (List.mergeSort ((agents.filter (fun a => a.isActive)).map (fun a =>
        ({ agentId := a.id
           averageRating := (computeReputation (ratingsOf a.id)).averageScore
           totalRatings := (computeReputation (ratingsOf a.id)).totalRatings } : RankedEntry)))
        (fun x y => decide (y.averageRating ≤ x.averageRating))) :=
      List.mem_of_mem_take he
    rw [List.mem_mergeSort, List.mem_map] at he'
    obtain ⟨a, -, rfl⟩ := he'
    exact ⟨rfl, fun hz => by simp [hz, computeReputation]⟩
  · intro i j h0 hpos
    by_contra hc
    push_neg at hc
    rcases lt_or_eq_of_le hc with hlt | heq
    · have := hpair i j hlt
      rw [h0] at this
      linarith
    · rw [heq] at h0
      rw [h0] at hpos
      linarith

/-- An active agent with one 5-star rating (see ratingsW). -/
def ratedAgent : AgentRec :=
  { id := "R1", isActive := true, lat := some 0, lon := some 0,
    available := 10, staticRating := 3 }

/-- An active agent with no ratings but static declared rating 3. -/
def unratedAgent : AgentRec :=
  { id := "Z1", isActive := true, lat := some 0, lon := some 0,
    available := 10, staticRating := 3 }

/-- A ratings table giving R1 one 5-star rating and everyone else none. -/
def ratingsW : String → List Rating := fun u =>
  if u = "R1" then [{ score := 5, category := none, entityType := none }] else []

theorem avgR1_eq_five : (computeReputation (ratingsW "R1")).averageScore = 5 := by
  have h : ratingsW "R1" = [{ score := 5, category := none, entityType := none }] := by
    simp [ratingsW]
  rw [h]
  have hne : [({ score := 5, category := none, entityType := none } : Rating)] ≠ [] := by simp
  rw [(computeReputation_of_ne_nil hne).1]
  have hsum : ratingSum [({ score := 5, category := none, entityType := none } : Rating)] = 5 := by
    simp [ratingSum]
  rw [hsum]
  simp only [List.length_singleton, Nat.cast_one, div_one]
  rw [round2_eq_down (f := 500) (by norm_num) (by norm_num)]
  norm_num

theorem topRankedW_eval :
    topRankedAgents ratingsW [ratedAgent, unratedAgent] 10
      = [{ agentId := "R1", averageRating := 5, totalRatings := 1 },
         { agentId := "Z1", averageRating := 0, totalRatings := 0 }] := by
  unfold topRankedAgents
  have hz : ratingsW "Z1" = [] := by simp [ratingsW]
  have hfil : ([ratedAgent, unratedAgent].filter (fun a => a.isActive))
      = [ratedAgent, unratedAgent] := by
    simp [ratedAgent, unratedAgent]
  rw [hfil]
  have hmap : ([ratedAgent, unratedAgent].map (fun a =>
      ({ agentId := a.id
         averageRating := (computeReputation (ratingsW a.id)).averageScore
         totalRatings := (computeReputation (ratingsW a.id)).totalRatings } : RankedEntry)))
      = [{ agentId := "R1", averageRating := 5, totalRatings := 1 },
         { agentId := "Z1", averageRating := 0, totalRatings := 0 }] := by
    simp only [List.map_cons, List.map_nil]
    have h1 : ratedAgent.id = "R1" := rfl
    have h2 : unratedAgent.id = "Z1" := rfl
    rw [h1, h2, hz]
    have htot : (computeReputation (ratingsW "R1")).totalRatings = 1 := by
      have h : ratingsW "R1" = [{ score := 5, category := none, entityType := none }] := by
        simp [ratingsW]
      rw [h]
      rfl
    rw [avgR1_eq_five, htot]
    rfl
  rw [hmap]
  rw [List.mergeSort_of_sorted]
  · rfl
  · constructor
    · intro b hb
      simp only [List.mem_singleton] at hb
      subst hb
      simp only [decide_eq_true_eq]
      norm_num
    · simp

/-- C10 witness: with one rated (average 5) and one unrated active agent, the
top-ranked list has the rated agent first; the ordering clause of the theorem
places the zero-average entry strictly after the positive one. -/
theorem top_ranked_no_fallback_ordering_witness :
    (topRankedAgents ratingsW [ratedAgent, unratedAgent] 10).length = 2 ∧
    ∃ i j : Fin (topRankedAgents ratingsW [ratedAgent, unratedAgent] 10).length,
      ((topRankedAgents ratingsW [ratedAgent, unratedAgent] 10).get i).averageRating = 0 ∧
      0 < ((topRankedAgents ratingsW [ratedAgent, unratedAgent] 10).get j).averageRating ∧
      j < i := by
  have hlen : (topRankedAgents ratingsW [ratedAgent, unratedAgent] 10).length = 2 := by
    rw [topRankedW_eval]
    rfl
  refine ⟨hlen, ⟨1, by omega⟩, ⟨0, by omega⟩, ?_, ?_, ?_⟩
  · have h0 : ((topRankedAgents ratingsW [ratedAgent, unratedAgent] 10).get ⟨1, by omega⟩).averageRating = 0 := by
      have := topRankedW_eval
      rw [List.get_of_eq this]
      rfl
    exact h0
  · have h1 : ((topRankedAgents ratingsW [ratedAgent, unratedAgent] 10).get ⟨0, by omega⟩).averageRating = 5 := by
      rw [List.get_of_eq topRankedW_eval]
      rfl
    rw [h1]
    norm_num
  · apply (top_ranked_no_fallback_ordering ratingsW [ratedAgent, unratedAgent] 10).2.2
    · rw [List.get_of_eq topRankedW_eval]
      rfl
    · rw [List.get_of_eq topRankedW_eval]
      norm_num

/-!
Verification workflow lemmas and claims C7-C9.
-/

theorem find?_id_map {l : List Product} {g : Product → Product} {x : String}
    (hid : ∀ p, (g p).id = p.id) :
    (l.map g).find? (fun p => p.id = x) = (l.find? (fun p => p.id = x)).map g := by
  have hpe : ((fun p : Product => decide (p.id = x)) ∘ g)
      = (fun p : Product => decide (p.id = x)) := by
    funext p
    simp [Function.comp, hid]
  rw [List.find?_map, hpe]

theorem patchProductVerified_fields (u : StatusUpdate) (aid : String) (now : ℕ)
    (p : Product) :
    (patchProductVerified u aid now p).id = p.id ∧
    (patchProductVerified u aid now p).farmerId = p.farmerId ∧
    (patchProductVerified u aid now p).status = "verified" ∧
    (patchProductVerified u aid now p).verifiedBy = some aid ∧
    (patchProductVerified u aid now p).verificationDate = some now ∧
    (patchProductVerified u aid now p).quantity = u.adjustedQuantity.getD p.quantity ∧
    (patchProductVerified u aid now p).pricePerUnit
      = u.adjustedPrice.getD p.pricePerUnit ∧
    (u.qualityGrade = none →
      (patchProductVerified u aid now p).qualityGrade = p.qualityGrade) := by
  unfold patchProductVerified
  cases hq : u.adjustedQuantity <;> cases hp : u.adjustedPrice <;>
    split_ifs with h <;>
      refine ⟨rfl, rfl, rfl, rfl, rfl, rfl, rfl, ?_⟩ <;>
        intro hn <;>
          first
            | rfl
            | (rw [hn] at h; exact absurd h (by simp [strTruthy]))

/-- C7: the verification start fails with Not-Found when the product does not
exist and with Conflict when it is already verified, in both cases leaving the
store untouched (no verification record, products unchanged); on success it
creates an in_progress verification record, sets the product status to
pending_verification, and notifies the assigned agent. -/
theorem start_verification_spec :
    ∀ (db : DBState) (pid : String) (data : VerificationCreate) (newId : String) (now : ℕ),
      (db.products.find? (fun p => p.id = pid) = none →
        startVerification db pid data newId now = (Except.error VerifyError.notFound, db)) ∧
      (∀ p, db.products.find? (fun p => p.id = pid) = some p → p.status = "verified" →
        startVerification db pid data newId now = (Except.error VerifyError.conflict, db)) ∧
      (∀ p, db.products.find? (fun p => p.id = pid) = some p → p.status ≠ "verified" →
        ∃ v db', startVerification db pid data newId now = (Except.ok v, db') ∧
          v.status = "in_progress" ∧ v.productId = pid ∧ v.agentId = data.agentId ∧
          db'.verifications = db.verifications ++ [v] ∧
          (∀ q ∈ db.products, q.id = pid →
            { q with status := "pending_verification" } ∈ db'.products) ∧
          (∀ q ∈ db.products, q.id ≠ pid → q ∈ db'.products) ∧
          db'.notifs = db.notifs
            ++ [{ userId := data.agentId, ntype := "listing_assigned",
                  relatedId := some newId, sms := true }]) := by
  intro db pid data newId now
  refine ⟨?_, ?_, ?_⟩
  · intro h
    unfold startVerification
    rw [h]
  · intro p hp hs
    unfold startVerification
    rw [hp]
    simp only [if_pos hs]
  · intro p hp hs
    unfold startVerification
    rw [hp]
    simp only [if_neg hs]
    refine ⟨_, _, rfl, rfl, rfl, rfl, rfl, ?_, ?_, rfl⟩
    · intro q hq hqid
      exact List.mem_map.mpr ⟨q, hq, by simp only [if_pos hqid]⟩
    · intro q hq hqid
      exact List.mem_map.mpr ⟨q, hq, by simp only [if_neg hqid]⟩

/-- A pending product P1 owned by farmer F1. -/
def prodPending : Product :=
  { id := "P1", status := "pending", farmerId := some "F1", qualityGrade := some "A",
    quantity := 40, pricePerUnit := 100, verifiedBy := none, verificationDate := none }

/-- The same product already in verified status. -/
def prodVerified : Product :=
  { id := "P1", status := "verified", farmerId := some "F1", qualityGrade := some "A",
    quantity := 40, pricePerUnit := 100, verifiedBy := none, verificationDate := none }

/-- A store holding only the pending product. -/
def dbPending : DBState := { products := [prodPending], verifications := [], notifs := [] }

/-- A store holding only the already-verified product. -/
def dbVerified : DBState := { products := [prodVerified], verifications := [], notifs := [] }

/-- The verification-start request body used in the witnesses. -/
def dataW : VerificationCreate := { agentId := "AG1", qualityGrade := none, notes := none }

/-- C7 witness: starting on a missing product is Not-Found with the store
untouched; starting on an already-verified product is Conflict with the store
untouched (in particular no verification record is created); starting on the
pending product succeeds with an in_progress record. -/
theorem start_verification_spec_witness :
    startVerification dbPending "P9" dataW "V1" 0
      = (Except.error VerifyError.notFound, dbPending) ∧
    (startVerification dbVerified "P1" dataW "V1" 0
      = (Except.error VerifyError.conflict, dbVerified) ∧
     (startVerification dbVerified "P1" dataW "V1" 0).2.verifications = []) ∧
    ∃ v db', startVerification dbPending "P1" dataW "V1" 0 = (Except.ok v, db') ∧
      v.status = "in_progress" ∧ db'.verifications = [v] := by
  have hfind9 : dbPending.products.find? (fun p => p.id = "P9") = none := by
    simp [dbPending, prodPending]
  have hfind1 : dbVerified.products.find? (fun p => p.id = "P1") = some prodVerified := by
    simp [dbVerified, prodVerified]
  have hfindP : dbPending.products.find? (fun p => p.id = "P1") = some prodPending := by
    simp [dbPending, prodPending]
  have h := start_verification_spec dbPending "P9" dataW "V1" 0
  have h1 := h.1 hfind9
  have h2 := (start_verification_spec dbVerified "P1" dataW "V1" 0).2.1 prodVerified
    hfind1 rfl
  obtain ⟨v, db', hok, hst, -, -, hvs, -, -, -⟩ :=
    (start_verification_spec dbPending "P1" dataW "V1" 0).2.2 prodPending hfindP
      (by simp [prodPending])
  refine ⟨h1, ⟨h2, ?_⟩, v, db', hok, hst, ?_⟩
  · rw [h2]
    rfl
  · rw [hvs]
    simp [dbPending]

/-- C8: a status update to verified/confirmed/adjusted marks the linked product
verified, stamps verified_by with the verification's agent and the verification
timestamp, overwrites quality grade, quantity and price-per-unit only when the
corresponding adjusted value was supplied, and leaves each unsupplied field
unchanged; unrelated products are untouched. -/
theorem update_verification_product_overwrite :
    ∀ (db : DBState) (vid : String) (u : StatusUpdate) (now : ℕ) (v : Verification),
      db.verifications.find? (fun w => w.id = vid) = some v →
      (u.status = "verified" ∨ u.status = "confirmed" ∨ u.status = "adjusted") →
      ∃ res db', updateVerificationStatus db vid u now = (Except.ok res, db') ∧
        (∀ p ∈ db.products, p.id = v.productId →
          ∃ p', p' ∈ db'.products ∧ p'.id = p.id ∧ p'.status = "verified" ∧
            p'.verifiedBy = some v.agentId ∧ p'.verificationDate = some now ∧
            p'.quantity = u.adjustedQuantity.getD p.quantity ∧
            (∀ q : ℚ, u.adjustedQuantity = some q → p'.quantity = q) ∧
            (u.adjustedQuantity = none → p'.quantity = p.quantity) ∧
            p'.pricePerUnit = u.adjustedPrice.getD p.pricePerUnit ∧
            (u.adjustedPrice = none → p'.pricePerUnit = p.pricePerUnit) ∧
            (u.qualityGrade = none → p'.qualityGrade = p.qualityGrade)) ∧
        (∀ p ∈ db.products, p.id ≠ v.productId → p ∈ db'.products) := by
  intro db vid u now v hfind hstat
  unfold updateVerificationStatus
  rw [hfind]
  simp only [if_pos hstat]
  refine ⟨_, _, rfl, ?_, ?_⟩
  · intro p hp hpid
    refine ⟨patchProductVerified u v.agentId now p, ?_, ?_⟩
    · split_ifs <;>
        exact List.mem_map.mpr ⟨p, hp, by simp only [if_pos hpid]⟩
    · obtain ⟨f1, -, f3, f4, f5, f6, f7, f8⟩ := patchProductVerified_fields u v.agentId now p
      refine ⟨f1, f3, f4, f5, f6, ?_, ?_, f7, ?_, f8⟩
      · intro q hq
        rw [f6, hq]
        rfl
      · intro hq
        rw [f6, hq]
        rfl
      · intro hq
        rw [f7, hq]
        rfl
  · intro p hp hpid
    split_ifs <;>
      exact List.mem_map.mpr ⟨p, hp, by simp only [if_neg hpid]⟩

/-- An in_progress verification record V1 for product P1 by agent AG1, with no
farmer reference of its own. -/
def verW : Verification :=
  { id := "V1", productId := "P1", agentId := "AG1", farmerId := none,
    status := "in_progress", originalGrade := none, verifiedGrade := none,
    notes := none, verifiedQuantity := none, createdAt := some 0, verifiedAt := none }

/-- A store holding the pending product P1 and the verification V1. -/
def dbWithVer : DBState :=
  { products := [prodPending], verifications := [verW], notifs := [] }

/-- The claim's example update: status verified, adjusted_quantity 45, no
adjusted_price, no quality grade. -/
def updV45 : StatusUpdate :=
  { status := "verified", qualityGrade := none, notes := none,
    adjustedQuantity := some 45, adjustedPrice := none }

/-- C8 witness: the claim's scenario — updating V1 to verified with
adjusted_quantity 45 and no adjusted_price makes the product quantity 45,
leaves the price at 100, and marks the product verified by AG1. -/
theorem update_verification_product_overwrite_witness :
    ∃ res db', updateVerificationStatus dbWithVer "V1" updV45 7 = (Except.ok res, db') ∧
      ∃ p', p' ∈ db'.products ∧ p'.status = "verified" ∧ p'.quantity = 45 ∧
        p'.pricePerUnit = 100 ∧ p'.verifiedBy = some "AG1" ∧
        p'.verificationDate = some 7 := by
  obtain ⟨res, db', hok, hmain, -⟩ :=
    update_verification_product_overwrite dbWithVer "V1" updV45 7 verW
      (by simp [dbWithVer, verW]) (Or.inl rfl)
  obtain ⟨p', hmem, hid, hst, hvb, hvd, hq, -, -, hpr, -, -⟩ :=
    hmain prodPending (by simp [dbWithVer]) (by simp [prodPending, verW])
  refine ⟨res, db', hok, p', hmem, hst, ?_, ?_, ?_, hvd⟩
  · rw [hq]
    rfl
  · rw [hpr]
    rfl
  · rw [hvb]
    rfl


/-- C9: a status update on a missing verification fails with Not-Found and
leaves the store untouched; an update to rejected sets the linked product's
status back to pending_verification (touching nothing else on it); and an
update to verified or rejected notifies the product's farmer, resolved from
the verification record when it carries a (truthy) farmer id and otherwise
looked up via the product's owner reference. -/
theorem update_verification_notfound_reject_notify :
    ∀ (db : DBState) (vid : String) (u : StatusUpdate) (now : ℕ),
      (db.verifications.find? (fun w => w.id = vid) = none →
        updateVerificationStatus db vid u now = (Except.error VerifyError.notFound, db)) ∧
      (∀ v, db.verifications.find? (fun w => w.id = vid) = some v →
        u.status = "rejected" →
        ∃ res db', updateVerificationStatus db vid u now = (Except.ok res, db') ∧
          (∀ p ∈ db.products, p.id = v.productId →
            { p with status := "pending_verification" } ∈ db'.products) ∧
          (∀ p ∈ db.products, p.id ≠ v.productId → p ∈ db'.products)) ∧
      (∀ v, db.verifications.find? (fun w => w.id = vid) = some v →
        (u.status = "verified" ∨ u.status = "rejected") →
        ∃ res db', updateVerificationStatus db vid u now = (Except.ok res, db') ∧
          (∀ f : String, v.farmerId = some f → f ≠ "" →
            db'.notifs = db.notifs
              ++ [(⟨f, "verification_complete", some vid, true⟩ : Notif)]) ∧
          ((v.farmerId = none ∨ v.farmerId = some "") →
            ∀ p, db.products.find? (fun q => q.id = v.productId) = some p →
              ∀ f : String, p.farmerId = some f → f ≠ "" →
                db'.notifs = db.notifs
                  ++ [(⟨f, "verification_complete", some vid, true⟩ : Notif)])) := by
  intro db vid u now
  refine ⟨?_, ?_, ?_⟩
  · intro h
    unfold updateVerificationStatus
    rw [h]
  · intro v hfind hrej
    unfold updateVerificationStatus
    rw [hfind]
    have hne : ¬(u.status = "verified" ∨ u.status = "confirmed" ∨ u.status = "adjusted") := by
      rw [hrej]
      decide
    have hc3 : u.status = "verified" ∨ u.status = "rejected" := Or.inr hrej
    simp only [if_neg hne, if_pos hrej, if_pos hc3]
    refine ⟨_, _, rfl, ?_, ?_⟩
    · intro p hp hpid
      split_ifs <;>
        exact List.mem_map.mpr ⟨p, hp, by simp only [if_pos hpid]⟩
    · intro p hp hpid
      split_ifs <;>
        exact List.mem_map.mpr ⟨p, hp, by simp only [if_neg hpid]⟩
  · intro v hfind hvr
    unfold updateVerificationStatus
    rw [hfind]
    have hc3 : u.status = "verified" ∨ u.status = "rejected" := hvr
    refine ⟨_, _, rfl, ?_, ?_⟩
    · intro f hvf hf
      have hstf : strTruthy (some f) = true := by
        simp [strTruthy, hf]
      simp only [if_pos hc3, hvf, if_pos hstf, Option.getD_some]
      rcases hvr with hv | hr
      · have hc1 : u.status = "verified" ∨ u.status = "confirmed" ∨ u.status = "adjusted" :=
          Or.inl hv
        simp only [if_pos hc1, pushNotif]
      · have hc1 : ¬(u.status = "verified" ∨ u.status = "confirmed" ∨ u.status = "adjusted") := by
          rw [hr]
          decide
        simp only [if_neg hc1, if_pos hr, pushNotif]
    · intro hvfe p hp f hpf hf
      have hst : strTruthy v.farmerId = false := by
        rcases hvfe with h | h <;> rw [h] <;> simp [strTruthy]
      have hnst : ¬(strTruthy v.farmerId = true) := by
        simp [hst]
      have hpid : p.id = v.productId := by
        have := List.find?_some hp
        simpa using this
      have hstf : strTruthy (some f) = true := by
        simp [strTruthy, hf]
      simp only [if_pos hc3, if_neg hnst]
      rcases hvr with hv | hr
      · have hc1 : u.status = "verified" ∨ u.status = "confirmed" ∨ u.status = "adjusted" :=
          Or.inl hv
        have hgid : ∀ q : Product,
            ((fun x : Product => if x.id = v.productId
              then patchProductVerified u v.agentId now x else x) q).id = q.id := by
          intro q
          dsimp only
          split_ifs with h
          · exact (patchProductVerified_fields u v.agentId now q).1
          · rfl
        have hfarm := (patchProductVerified_fields u v.agentId now p).2.1
        simp only [if_pos hc1, find?_id_map hgid, hp, Option.map_some, Option.map_some',
          if_pos hpid, hfarm, hpf, hstf, if_pos rfl, if_true, Option.getD_some, pushNotif]
      · have hc1 : ¬(u.status = "verified" ∨ u.status = "confirmed" ∨ u.status = "adjusted") := by
          rw [hr]
          decide
        have hgid : ∀ q : Product,
            ((fun x : Product => if x.id = v.productId
              then { x with status := "pending_verification" } else x) q).id = q.id := by
          intro q
          dsimp only
          split_ifs with h
          · rfl
          · rfl
        simp only [if_neg hc1, if_pos hr, find?_id_map hgid, hp, Option.map_some,
          Option.map_some', if_pos hpid, hpf, hstf, if_pos rfl, if_true,
          Option.getD_some, pushNotif]

/-- A rejection update carrying no adjusted fields. -/
def updRej : StatusUpdate :=
  { status := "rejected", qualityGrade := none, notes := none,
    adjustedQuantity := none, adjustedPrice := none }

/-- C9 witness: updating a missing verification V9 is Not-Found with the store
untouched; rejecting V1 puts product P1 back into pending_verification and
notifies farmer F1 (resolved through the product, since the verification row
carries no farmer id). -/
theorem update_verification_notfound_reject_notify_witness :
    updateVerificationStatus dbWithVer "V9" updRej 3
      = (Except.error VerifyError.notFound, dbWithVer) ∧
    ∃ res db', updateVerificationStatus dbWithVer "V1" updRej 3 = (Except.ok res, db') ∧
      { prodPending with status := "pending_verification" } ∈ db'.products ∧
      db'.notifs = dbWithVer.notifs
        ++ [(⟨"F1", "verification_complete", some "V1", true⟩ : Notif)] := by
  have h9 := update_verification_notfound_reject_notify dbWithVer "V9" updRej 3
  have h1 := update_verification_notfound_reject_notify dbWithVer "V1" updRej 3
  have hfindV : dbWithVer.verifications.find? (fun w => w.id = "V1") = some verW := by
    simp [dbWithVer, verW]
  refine ⟨h9.1 (by simp [dbWithVer, verW]), ?_⟩
  obtain ⟨res, db', hok, hmem, -⟩ := h1.2.1 verW hfindV rfl
  obtain ⟨res2, db2', hok2, -, hnotif⟩ := h1.2.2 verW hfindV (Or.inr rfl)
  have heq : (Except.ok res, db') = (Except.ok res2, db2') := hok.symm.trans hok2
  have hdb : db' = db2' := congrArg Prod.snd heq
  refine ⟨res, db', hok, ?_, ?_⟩
  · exact hmem prodPending (by simp [dbWithVer]) rfl
  · rw [hdb]
    exact hnotif (Or.inl rfl) prodPending (by simp [dbWithVer, prodPending, verW])
      "F1" rfl (by decide)
